import Mathlib

/-!
Verification development for the RSMatcher repository.

The Python sources (rsmatch/database.py, rsmatch/matcher.py) are shallowly
embedded below: pure list/`Finset` values replace Python lists/sets, guids are
natural numbers, machine integers are `Nat`/`Int`, and fallible operations
(Python exceptions) return `Except`/`Option`.
-/

deriving instance DecidableEq for Except

namespace RSMatch

/-- A graph-node key `(day_i, slot_i, teacher_guid)` as used by matcher.py. -/
abbrev Node := ℕ × ℕ × ℕ

/-- An assignment tuple `(day, slot, teacher_guid, student_guid, coach_guid)`. -/
abbrev Assign := ℕ × ℕ × ℕ × ℕ × ℕ

/-- Day of an assignment tuple. -/
def Assign.day (a : Assign) : ℕ := a.1

/-- Slot of an assignment tuple. -/
def Assign.slot (a : Assign) : ℕ := a.2.1

/-- Teacher guid of an assignment tuple. -/
def Assign.teacher (a : Assign) : ℕ := a.2.2.1

/-- Student guid of an assignment tuple. -/
def Assign.student (a : Assign) : ℕ := a.2.2.2.1

/-- Coach guid of an assignment tuple. -/
def Assign.coach (a : Assign) : ℕ := a.2.2.2.2

/-- Python `<` on 5-tuples of ints: lexicographic strict order
(database.py compares `curr_assign < assign` on assignment tuples). -/
def assignLtB (a b : Assign) : Bool :=
  decide (a.1 < b.1) ||
  (decide (a.1 = b.1) &&
    (decide (a.2.1 < b.2.1) ||
    (decide (a.2.1 = b.2.1) &&
      (decide (a.2.2.1 < b.2.2.1) ||
      (decide (a.2.2.1 = b.2.2.1) &&
        (decide (a.2.2.2.1 < b.2.2.2.1) ||
        (decide (a.2.2.2.1 = b.2.2.2.1) &&
          decide (a.2.2.2.2 < b.2.2.2.2))))))))

/-- `RSDatabase.add_assignment`, stored-list part (database.py lines 116-129):
walk the stored list computing the insertion index; an element equal to the
new tuple makes the call return with the list unchanged; otherwise the tuple
is inserted at the first position whose element is not `<` it.  The schedule
and flag mutations of lines 105-114 do not touch the stored list; the
`manual`/`timestamp` fields stored alongside each tuple play no role in
ordering or duplicate detection and are omitted. -/
def insert_assign (a : Assign) : List Assign → List Assign
  | [] => [a]
  | x :: xs =>
    if assignLtB x a then x :: insert_assign a xs
    else if x = a then x :: xs
    else a :: x :: xs

/-- Sortedness of the stored assignment list with respect to Python tuple `<`. -/
abbrev AscSorted (l : List Assign) : Prop :=
  List.Sorted (fun x y => assignLtB x y = true) l

/-- `Metadata` (database.py): the start/end window and slot duration, in
minutes.  `datetime.timedelta` values are whole minutes throughout. -/
structure Meta where
  startM : ℤ
  endM : ℤ
  mps : ℤ

/-- The `Metadata()` constructor defaults: 8:30-15:30, 15-minute slots. -/
def metaDefault : Meta where
  startM := 8 * 60 + 30
  endM := 15 * 60 + 30
  mps := 15

/-- `Metadata.num_slots` (database.py lines 208-211):
`int(((end - start).total_seconds() // 60) // minutes_per_slot)`;
Python `//` is floor division, i.e. `Int.fdiv`. -/
def Meta.num_slots (m : Meta) : ℤ := (m.endM - m.startM).fdiv m.mps

/-- `slots_per_assignment = int(math.ceil(mpa / mps))` (database.py 175-176)
for positive int inputs. -/
def spaOf (mps mpa : ℕ) : ℕ := (mpa + mps - 1) / mps

/-- `Metadata.time_to_slot` (database.py lines 178-187) after the string has
been split and parsed: input is the pair of parsed ints `(hours, minutes)`.
If the time is before the window start, 12 hours are added; a time past the
window end raises; otherwise the floor-divided slot index is returned. -/
def time_to_slot (m : Meta) (hours minutes : ℤ) : Except String ℤ :=
  let curr := 60 * hours + minutes
  let curr := if curr < m.startM then curr + 720 else curr
  if m.endM < curr then Except.error "Time falls outside window"
  else Except.ok ((curr - m.startM).fdiv m.mps)

/-- A teacher record (database.py `Teacher`; fields used by the matcher). -/
structure Teacher where
  guid : ℕ
  email : String
  grade : ℕ
deriving DecidableEq

/-- A student record (database.py `Student`; fields used by the matcher).
`sched` is the day-by-slot availability matrix with values 0/1/2. -/
structure Student where
  guid : ℕ
  teacher : String
  sched : List (List ℕ)
  assigned : Bool
deriving DecidableEq

/-- A school record (database.py `School`). -/
structure School where
  name : String
  students : List Student
  teachers : List Teacher

/-- A coach record (database.py `Coach`; fields used by the matcher and
orchestrator).  `assignedDays`/`priorAssignments` are the running sets that
already-committed assignments have grown. -/
structure Coach where
  guid : ℕ
  schools : List String
  grades : List ℕ
  numStudents : ℕ
  numDays : ℕ
  sched : List (List ℕ)
  assignedDays : Finset ℕ
  priorAssignments : Finset Assign

/-- `RSDatabase.find_school` (database.py lines 94-102): first school whose
teacher list contains the argument; the second loop (`for student in
school.teachers`) iterates `school.teachers` again in the source, so it is
the same test repeated.  The Python function returns the `School` object;
object identity is modelled by the index into the school list. -/
def find_school (schools : List School) (g : ℕ) : Option ℕ :=
  schools.findIdx? fun s =>
    (s.teachers.any fun te => te.guid == g) || (s.teachers.any fun te => te.guid == g)

/-- Look up row `day` of a schedule matrix; a Python `schedule[day]` with the
day out of range raises `IndexError`. -/
def rowAt (m : List (List ℕ)) (day : ℕ) : Except String (List ℕ) :=
  match m.get? day with
  | some r => Except.ok r
  | none => Except.error "IndexError"

/-- Python slice `row[slot : slot + spa]` for a non-negative `slot`. -/
def sliceAt (row : List ℕ) (slot spa : ℕ) : List ℕ := (row.drop slot).take spa

/-- One availability loop of `RSDatabase.check_assignment` (database.py lines
140-143 resp. 144-147): `for slot_val in sched[day][slot:slot+spa]: if not
slot_val: raise ValueError(msg)`.  `not slot_val` on an int is `slot_val == 0`. -/
def availCheck (m : List (List ℕ)) (day slot spa : ℕ) (msg : String) :
    Except String Unit :=
  match rowAt m day with
  | Except.error e => Except.error e
  | Except.ok row =>
    if (sliceAt row slot spa).any (fun v => v == 0) then Except.error msg
    else Except.ok ()

/-- The availability phase of `check_assignment`: the coach loop then the
student loop. -/
def availPhase (coachSched studentSched : List (List ℕ)) (day slot spa : ℕ) :
    Except String Unit :=
  match availCheck coachSched day slot spa "Coach not available" with
  | Except.error e => Except.error e
  | Except.ok _ => availCheck studentSched day slot spa "Student not available"

/-- The conflict loop of `check_assignment` (database.py lines 148-163) over
the stored assignment list, in order.  `curr_school` is computed in the
source as `self.find_school(teacher)` from the CANDIDATE tuple's teacher
(line 151); the committed tuple's teacher guid is discarded at line 150. -/
def conflictLoop (schools : List School) (a : Assign) : List Assign → Except String Unit
  | [] => Except.ok ()
  | curr :: rest =>
    if curr = a then Except.error "Duplicate assignment"
    else if curr.student = a.student then Except.error "Student already assigned"
    else if (curr.day, curr.slot, curr.coach) = (a.day, a.slot, a.coach) then
      Except.error "Coach already assigned on day at time"
    else
      let currSchool := find_school schools a.teacher
      let school := find_school schools a.teacher
      if (curr.day, curr.coach) = (a.day, a.coach) ∧ currSchool ≠ school then
        Except.error "Coach already assigned to a different school"
      else conflictLoop schools a rest

/-- `RSDatabase.check_assignment` (database.py lines 131-163).  `sched` maps a
guid to that object's schedule matrix (the catalog lookups of lines 133-135).
`day_to_str` at line 137 indexes the 5-element `DAYS` list, so a day out of
`[0,5)` raises before any check runs. -/
def check_assignment (spa : ℕ) (schools : List School)
    (sched : ℕ → List (List ℕ)) (assigns : List Assign) (a : Assign) :
    Except String Unit :=
  if a.day < 5 then
    match availPhase (sched a.coach) (sched a.student) a.day a.slot spa with
    | Except.error e => Except.error e
    | Except.ok _ => conflictLoop schools a assigns
  else Except.error "IndexError"

/-! ## matcher.py: availability graph, cycle enumeration, filtering -/

/-- `teachers_by_email[student.teacher].guid` (matcher.py line 297): the guid
of the first teacher in the school list carrying the student's teacher email
(teacher emails are unique per school). -/
def teacherGuidOf (teachers : List Teacher) (st : Student) : Option ℕ :=
  (teachers.find? fun te => te.email == st.teacher).map Teacher.guid

/-- The student list stored on graph node `(d, s, t)` (matcher.py lines
293-303): guids of students, in (post-shuffle) list order, whose schedule
cell `(d, s)` equals 1 and whose teacher has guid `t`.  Out-of-range cells
read as 0 (the source loops never reach them). -/
def availStudents (students : List Student) (teachers : List Teacher)
    (d s t : ℕ) : List ℕ :=
  (students.filter fun st =>
    ((st.sched.getD d []).getD s 0 == 1) && (teacherGuidOf teachers st == some t)).map
    Student.guid

/-- The teacher guids keyed under `nodes[(d, s)]` (matcher.py lines 298-303):
those with at least one available student at that cell. -/
def teacherGuidsAt (students : List Student) (teachers : List Teacher)
    (d s : ℕ) : List ℕ :=
  (teachers.filter fun te => availStudents students teachers d s te.guid ≠ []).map
    Teacher.guid

/-- The master-graph nodes emitted with a `students` attribute (matcher.py
lines 311-314), in dict-iteration (insertion) order. -/
def masterNodeList (students : List Student) (teachers : List Teacher)
    (numDays numSlots : ℕ) : List Node :=
  (List.range numDays).flatMap fun d =>
    (List.range numSlots).flatMap fun s =>
      (teacherGuidsAt students teachers d s).map fun t => (d, s, t)

/-- The master-graph edge list (matcher.py lines 320-328): for every day, for
every slot in `range(1, num_slots)`, for every teacher keyed at that cell,
`add_edge((d, s-1, t), (d, s, t))`.  Note the source endpoint is not checked
for existence; `networkx.add_edge` creates missing endpoints implicitly. -/
def graphEdges (students : List Student) (teachers : List Teacher)
    (numDays numSlots : ℕ) : List (Node × Node) :=
  (List.range numDays).flatMap fun d =>
    (List.range' 1 (numSlots - 1)).flatMap fun s =>
      (teacherGuidsAt students teachers d s).map fun t =>
        (((d, s - 1, t) : Node), ((d, s, t) : Node))

/-- The master graph's per-node student attribute, used by
`Traversal.add_cycle` via `graph.node[node]['students']`. -/
def graphFn (school : School) : Node → List ℕ := fun n =>
  availStudents school.students school.teachers n.1 n.2.1 n.2.2

/-- A node of the per-coach augmented graph: either the synthetic coach node
(a bare guid in the source) or a `(day, slot, teacher)` tuple node. -/
inductive GNode where
  | coach (g : ℕ)
  | slot (n : Node)
deriving DecidableEq

/-- Adjacency of the base (master) graph as a boolean test on the edge list. -/
def baseEdgeB (students : List Student) (teachers : List Teacher)
    (numDays numSlots : ℕ) (x y : Node) : Bool :=
  (graphEdges students teachers numDays numSlots).contains (x, y)

/-- Whether the coach node is linked to tuple node `n` (matcher.py lines
348-363): the coach's cell is 1, the node is keyed in the `nodes` dict, and
the coach has no grade preference or the teacher's grade is preferred. -/
def coachLinkB (students : List Student) (teachers : List Teacher)
    (numDays numSlots : ℕ) (coach : Coach) (n : Node) : Bool :=
  decide (n.1 < numDays) && decide (n.2.1 < numSlots) &&
  ((coach.sched.getD n.1 []).getD n.2.1 0 == 1) &&
  (teacherGuidsAt students teachers n.1 n.2.1).contains n.2.2 &&
  (coach.grades.isEmpty ||
    (match teachers.find? (fun te => te.guid == n.2.2) with
     | some te => coach.grades.contains te.grade
     | none => false))

/-- Adjacency of the per-coach augmented graph: base edges between tuple
nodes, plus the bidirectional coach links. -/
def augEdgeB (students : List Student) (teachers : List Teacher)
    (numDays numSlots : ℕ) (coach : Coach) : GNode → GNode → Bool
  | GNode.slot x, GNode.slot y => baseEdgeB students teachers numDays numSlots x y
  | GNode.coach g, GNode.slot n =>
    (g == coach.guid) && coachLinkB students teachers numDays numSlots coach n
  | GNode.slot n, GNode.coach g =>
    (g == coach.guid) && coachLinkB students teachers numDays numSlots coach n
  | GNode.coach _, GNode.coach _ => false

/-- Whether a nonempty node sequence is a closed walk (each consecutive pair
is an edge and the last node links back to the first). -/
def isClosedPath (edge : GNode → GNode → Bool) : List GNode → Bool
  | [] => false
  | v :: vs => go v (v :: vs)
where
  go (start : GNode) : List GNode → Bool
    | [] => false
    | [x] => edge x start
    | x :: y :: r => edge x y && go start (y :: r)

/-- All ways to insert an element into a list. -/
def insertAll (a : GNode) : List GNode → List (List GNode)
  | [] => [[a]]
  | y :: ys => (a :: y :: ys) :: (insertAll a ys).map fun l => y :: l

/-- All permutations of a list. -/
def permsOf : List GNode → List (List GNode)
  | [] => [[]]
  | x :: xs => (permsOf xs).flatMap (insertAll x)

/-- Modelled from the spec: `networkx.simple_cycles` (matcher.py line 368) is
third-party code; the spec calls for enumerating "all elementary (simple)
cycles" with a standard algorithm.  Denotationally: every elementary cycle of
the graph, listed once, as a node sequence without repetition; each cycle is
canonically rotated to start at its member that occurs earliest in the node
list (enumerated here as a head-fixed permutation of a sublist). -/
def elemCycles (nodes : List GNode) (edge : GNode → GNode → Bool) :
    List (List GNode) :=
  (nodes.sublists.filter fun s => !s.isEmpty).flatMap fun s =>
    ((permsOf s).filter fun p => p.head? == s.head?).filter (isClosedPath edge)

/-- A canonical cycle: the coach guid (list index 0 in the source) and the
sorted tuple-node run. -/
structure Cycle where
  coach : ℕ
  nodes : List Node
deriving DecidableEq

/-- The tuple nodes of a raw cycle (`[x for x in cycle if isinstance(x,
tuple)]`, matcher.py line 375). -/
def slotNodesOf (raw : List GNode) : List Node :=
  raw.filterMap fun x => match x with
    | GNode.slot n => some n
    | GNode.coach _ => none

/-- Python `<` on `(day, slot, teacher)` int tuples. -/
def nodeLtB (x y : Node) : Bool :=
  decide (x.1 < y.1) ||
  (decide (x.1 = y.1) &&
    (decide (x.2.1 < y.2.1) ||
    (decide (x.2.1 = y.2.1) && decide (x.2.2 < y.2.2))))

/-- `cycle.sort()` (matcher.py line 384): stable ascending sort by tuple
order. -/
def sortNodes (l : List Node) : List Node :=
  List.insertionSort (fun a b => nodeLtB b a = false) l

/-- The per-cycle filter and normalization (matcher.py lines 373-387): strip
the coach guid, keep the cycle only if its length in assignment units is at
most the coach's TOTAL `num_students` and its node count is a multiple of
`slots_per_assignment`, then sort the nodes and re-insert the coach guid. -/
def processCycle (spa coachGuid numStudents : ℕ) (raw : List GNode) :
    Option Cycle :=
  let tnodes := slotNodesOf raw
  if tnodes.length / spa ≤ numStudents then
    if tnodes.length % spa == 0 then some ⟨coachGuid, sortNodes tnodes⟩
    else none
  else none

/-- `filtered_cycles.sort(key=len)` (matcher.py line 390): stable ascending
by length (the stored coach guid adds 1 to every length, preserving order). -/
def sortCyclesByLen (l : List Cycle) : List Cycle :=
  List.insertionSort (fun a b => a.nodes.length ≤ b.nodes.length) l

/-- All filtered, sorted cycles of one coach (matcher.py lines 340-397). -/
def coachCycles (spa : ℕ) (students : List Student) (teachers : List Teacher)
    (numDays numSlots : ℕ) (coach : Coach) : List Cycle :=
  let gnodes :=
    (masterNodeList students teachers numDays numSlots).map GNode.slot ++
      [GNode.coach coach.guid]
  let raws := elemCycles gnodes (augEdgeB students teachers numDays numSlots coach)
  sortCyclesByLen (raws.filterMap (processCycle spa coach.guid coach.numStudents))

/-! ## matcher.py: cycle ordering (round-robin interleaves)

The `while keep_adding` loops terminate because every iteration with a
nonempty list removes at least one cycle; they are embedded structurally with
a fuel argument set to the total cycle count, which that argument makes
exact: once the fuel is spent, every list is empty and the loop would have
stopped anyway. -/

/-- Total number of cycles left across the per-coach lists. -/
def totalLen (ls : List (List Cycle)) : ℕ := (ls.map List.length).sum

/-- Iterations of the pop-from-tail round-robin loop. -/
def rrBackGo : ℕ → List (List Cycle) → List Cycle
  | 0, _ => []
  | fuel + 1, ls =>
    if ls.all List.isEmpty then []
    else (ls.filterMap List.getLast?) ++ rrBackGo fuel (ls.map List.dropLast)

/-- The per-coach round-robin interleave (matcher.py lines 404-413): while
some list is nonempty, pop the LAST element of each nonempty list in turn. -/
def rrBack (ls : List (List Cycle)) : List Cycle := rrBackGo (totalLen ls) ls

/-- Iterations of the pop-from-front round-robin loop. -/
def rrFrontGo : ℕ → List (List Cycle) → List Cycle
  | 0, _ => []
  | fuel + 1, ls =>
    if ls.all List.isEmpty then []
    else (ls.filterMap List.head?) ++ rrFrontGo fuel (ls.map List.tail)

/-- The per-teacher round-robin interleave (matcher.py lines 426-435): while
some list is nonempty, pop the FIRST element of each nonempty list in turn. -/
def rrFront (ls : List (List Cycle)) : List Cycle := rrFrontGo (totalLen ls) ls

/-- `cycle[-1][-1]` (matcher.py line 421): the teacher guid of a cycle's last
node. -/
def teacherKeyOf (c : Cycle) : ℕ := (c.nodes.getLastD (0, 0, 0)).2.2

/-- First occurrences of each key, in order (the `OrderedDict` key order of
matcher.py lines 418-424); fuel is the list length, which the filter never
lets the recursion outrun. -/
def firstKeysGo : ℕ → List ℕ → List ℕ
  | _, [] => []
  | 0, _ :: _ => []
  | fuel + 1, k :: ks => k :: firstKeysGo fuel (ks.filter fun x => x ≠ k)

/-- First occurrences of each key, in order. -/
def firstKeys (l : List ℕ) : List ℕ := firstKeysGo l.length l

/-- Group cycles by the teacher guid of their last node, retaining insertion
order of keys and of cycles within a key. -/
def groupByTeacher (cycles : List Cycle) : List (List Cycle) :=
  (firstKeys (cycles.map teacherKeyOf)).map fun k =>
    cycles.filter fun c => teacherKeyOf c == k

/-- `SchoolMatcher.find_cycles` (matcher.py lines 277-437).  The students list
is used in its post-`random.shuffle` order (the order of `school.students`
here).  The source reads the day/slot dimensions from `students[0].schedule`,
so an empty student list (or an empty schedule) raises `IndexError`. -/
def find_cycles (spa : ℕ) (school : School) (coaches : List Coach) :
    Except String (List Cycle) :=
  match school.students with
  | [] => Except.error "list index out of range"
  | s0 :: _ =>
    match s0.sched with
    | [] => Except.error "list index out of range"
    | r0 :: _ =>
      let numDays := s0.sched.length
      let numSlots := r0.length
      let allCycles := coaches.map
        (coachCycles spa school.students school.teachers numDays numSlots)
      let cycles1 := rrBack allCycles
      Except.ok (rrFront (groupByTeacher cycles1))

/-! ## matcher.py: Traversal search state -/

/-- `Traversal` (matcher.py lines 35-105): one search-tree snapshot.  Python
dicts keyed by coach guid are total functions here; the school/coaches
references and the score cache are handled outside the structure. -/
structure Traversal where
  coachStudentCount : ℕ → ℤ
  coachDayCount : ℕ → ℤ
  daysRemaining : ℤ
  studentsRemaining : ℤ
  coachDays : ℕ → Finset ℕ
  unassigned : Finset ℕ
  assigned : Finset ℕ
  nodesUsed : Finset Node
  numCycles : ℕ
  assignments : List Assign

/-- `coaches.find?` by guid, standing in for the dict lookups built in the
root constructor (with catalog-unique guids, first match is the match). -/
def findCoach (coaches : List Coach) (g : ℕ) : Option Coach :=
  coaches.find? fun c => c.guid == g

/-- The root `Traversal` (matcher.py lines 62-92, `parent is None` branch). -/
def rootTraversal (school : School) (coaches : List Coach) : Traversal where
  coachStudentCount g :=
    match findCoach coaches g with
    | some c => (c.numStudents : ℤ) - c.priorAssignments.card
    | none => 0
  coachDayCount g :=
    match findCoach coaches g with
    | some c => (c.numDays : ℤ) - c.assignedDays.card
    | none => 0
  daysRemaining := (coaches.map fun c => (c.numDays : ℤ) - c.assignedDays.card).sum
  studentsRemaining :=
    (coaches.map fun c => (c.numStudents : ℤ) - c.priorAssignments.card).sum
  coachDays g :=
    match findCoach coaches g with
    | some c => c.assignedDays
    | none => ∅
  unassigned := ((school.students.filter fun s => !s.assigned).map Student.guid).toFinset
  assigned := ((school.students.filter fun s => s.assigned).map Student.guid).toFinset
  nodesUsed := ∅
  numCycles := 0
  assignments := []

/-- The copy-on-write child (matcher.py lines 93-105) before any cycle data
is applied, including the `num_cycles` bump of line 143. -/
def childOf (t : Traversal) : Traversal := { t with numCycles := t.numCycles + 1 }

/-- Iterations of the `range(0, len(cycle), spa)` chunking loop; fuel is the
list length, which a positive step never lets the recursion outrun. -/
def chunkifyGo (spa : ℕ) : ℕ → List Node → List (List Node)
  | _, [] => []
  | 0, _ :: _ => []
  | fuel + 1, x :: xs => ((x :: xs).take spa) :: chunkifyGo spa fuel ((x :: xs).drop spa)

/-- `range(0, len(cycle), spa)` slicing (matcher.py lines 145-147): the cycle
node list cut into consecutive chunks of `spa` nodes.  A zero step raises in
Python; `spa = 0` is excluded by hypotheses wherever it matters. -/
def chunkify (spa : ℕ) (l : List Node) : List (List Node) := chunkifyGo spa l.length l

/-- The in-progress child plus the `num_assignments` tally of matcher.py
line 144. -/
structure GroupState where
  t : Traversal
  numAssignments : ℕ

/-- One iteration of the group loop (matcher.py lines 145-180) on one chunk:
skip the chunk if it intersects the used-node set (the rest of the loop body
is guarded by line 149); otherwise claim its nodes, intersect the available
students of every node, take the first student of the head node's list that
survives and is unassigned, and commit it if found. -/
def processGroup (graph : Node → List ℕ) (coachGuid : ℕ) (s : GroupState)
    (group : List Node) : GroupState :=
  match group with
  | [] => s
  | node :: rest =>
    let nodesSet := (node :: rest).toFinset
    if (nodesSet ∩ s.t.nodesUsed).Nonempty then s
    else
      let t1 := { s.t with nodesUsed := nodesSet ∪ s.t.nodesUsed }
      let nodeStudents := graph node
      let possible := (node :: rest).foldl
        (fun acc n => acc ∩ (graph n).toFinset) nodeStudents.toFinset
      match nodeStudents.find? fun g =>
          decide (g ∈ possible) && decide (g ∈ t1.unassigned) with
      | none => { s with t := t1 }
      | some stu =>
        { t := { t1 with
            unassigned := t1.unassigned.erase stu
            assigned := insert stu t1.assigned
            coachStudentCount := fun g =>
              if g = coachGuid then t1.coachStudentCount g - 1
              else t1.coachStudentCount g
            studentsRemaining := t1.studentsRemaining - 1
            assignments :=
              t1.assignments ++ [(node.1, node.2.1, node.2.2, stu, coachGuid)] }
          numAssignments := s.numAssignments + 1 }

/-- `Traversal.add_cycle` (matcher.py lines 107-208), child-producing part:
the cascade of day-capacity, student-capacity and same-day checks, then the
group loop on a fresh child; the child is returned only when every group
committed a student.  (The terminal-state update of lines 195-205 mutates
the PARENT and is modelled by `isDone` below.)  Python `if days_remaining:`
is int truthiness, i.e. `≠ 0`. -/
def add_cycle (spa : ℕ) (graph : Node → List ℕ) (t : Traversal) (cy : Cycle) :
    Option Traversal :=
  let coachGuid := cy.coach
  if t.coachDayCount coachGuid ≠ 0 then
    if ((cy.nodes.length / spa : ℕ) : ℤ) ≤ t.coachStudentCount coachGuid then
      match cy.nodes with
      | [] => none
      | n0 :: _ =>
        let dayI := n0.1
        if dayI ∉ t.coachDays coachGuid then
          let res := (chunkify spa cy.nodes).foldl
            (processGroup graph coachGuid) ⟨childOf t, 0⟩
          if res.numAssignments = cy.nodes.length / spa then
            some { res.t with
              coachDayCount := fun g =>
                if g = coachGuid then res.t.coachDayCount g - 1
                else res.t.coachDayCount g
              daysRemaining := res.t.daysRemaining - 1
              coachDays := fun g =>
                if g = coachGuid then insert dayI (res.t.coachDays g)
                else res.t.coachDays g }
          else none
        else none
    else none
  else none

/-- The terminal condition (matcher.py lines 195-200), evaluated on the
original traversal after each `add_cycle` call: aggregate day capacity 0,
aggregate student capacity 0, or no unassigned students left. -/
def isDone (t : Traversal) : Bool :=
  t.daysRemaining == 0 || t.studentsRemaining == 0 || decide (t.unassigned = ∅)

/-! ## matcher.py: scorer and driver loop -/

/-- The slot-overlap count of `Traversal.score` (matcher.py lines 236-243):
walk the assignments keeping a seen-(day, slot) set; repeats count one each. -/
def countOverlaps (assigns : List Assign) : ℕ :=
  (assigns.foldl
    (fun (p : Finset (ℕ × ℕ) × ℕ) a =>
      let k := (a.day, a.slot)
      if k ∈ p.1 then (p.1, p.2 + 1) else (insert k p.1, p.2))
    (∅, 0)).2

/-- `Traversal.score` (matcher.py lines 216-254): the 4-tuple (unassigned
students, unassigned teachers, slot overlaps, aggregate days remaining),
ascending = better.  The lazy cache of the source is value-transparent. -/
def scoreKey (school : School) (t : Traversal) : ℕ × ℕ × ℕ × ℤ :=
  let teacherSet := (school.teachers.map Teacher.guid).toFinset
  let unassignedTeachers := t.assignments.foldl (fun s a => s.erase a.teacher) teacherSet
  (t.unassigned.card, unassignedTeachers.card, countOverlaps t.assignments,
    t.daysRemaining)

/-- Python `<=` on score tuples (lexicographic). -/
def scoreLeB (a b : ℕ × ℕ × ℕ × ℤ) : Bool :=
  decide (a.1 < b.1) ||
  (decide (a.1 = b.1) &&
    (decide (a.2.1 < b.2.1) ||
    (decide (a.2.1 = b.2.1) &&
      (decide (a.2.2.1 < b.2.2.1) ||
      (decide (a.2.2.1 = b.2.2.1) && decide (a.2.2.2 ≤ b.2.2.2))))))

/-- `traversals.sort(key=lambda x: x.score)`: stable ascending sort by score. -/
def sortTravs (school : School) (ts : List Traversal) : List Traversal :=
  List.insertionSort (fun x y => scoreLeB (scoreKey school x) (scoreKey school y) = true) ts

/-- The `finished` cap (matcher.py line 472). -/
def maxFinished : ℕ := 100000

/-- The `active` cap (matcher.py line 473). -/
def maxUnfinished : ℕ := 200000

/-- The per-cycle loop of `SchoolMatcher.find_solutions` (matcher.py lines
476-511): stop once `finished` reaches its cap; cull the active list when it
reaches its cap; then attempt the cycle on every active traversal, collecting
children, siphoning done traversals into `finished`.  (The score-cache resets
of lines 493-495 are value-transparent.) -/
def driverLoop (spa : ℕ) (graph : Node → List ℕ) (school : School) :
    List Cycle → List Traversal → List Traversal →
    List Traversal × List Traversal
  | [], finished, travs => (finished, travs)
  | cy :: rest, finished, travs =>
    if maxFinished ≤ finished.length then (finished, travs)
    else
      let travs :=
        if maxUnfinished ≤ travs.length then (sortTravs school travs).take maxFinished
        else travs
      let r := travs.foldl
        (fun (acc : List Traversal × List Traversal) t =>
          let acc2 :=
            match add_cycle spa graph t cy with
            | some child => (acc.1, acc.2 ++ [child])
            | none => acc
          if isDone t then (acc2.1 ++ [t], acc2.2) else (acc2.1, acc2.2 ++ [t]))
        (finished, [])
      driverLoop spa graph school rest r.1 r.2

/-- `SchoolMatcher.find_solutions` (matcher.py lines 453-533): run the driver
from a fresh root, fill `finished` from the remaining active traversals if
below cap, final sort, and take the best-scoring traversal. -/
def find_solutions (spa : ℕ) (graph : Node → List ℕ) (school : School)
    (coaches : List Coach) (cycles : List Cycle) : Option Traversal :=
  let root := rootTraversal school coaches
  let fin := driverLoop spa graph school cycles [] [root]
  let finished :=
    if fin.1.length < maxFinished then
      fin.1 ++ (sortTravs school fin.2).take (maxFinished - fin.1.length)
    else fin.1
  (sortTravs school finished).head?

/-! ## matcher.py: orchestrator coach filter (do_match) -/

/-- `coach.schools[i]` (matcher.py lines 548-549): a Python list index that
raises `IndexError` when out of range. -/
def idxAt (l : List String) (i : ℕ) : Except String String :=
  match l.get? i with
  | some x => Except.ok x
  | none => Except.error "IndexError"

/-- The per-coach eligibility test of `do_match` (matcher.py lines 547-552):
`match1 = first and name == coach.schools[0]`;
`match2 = second and name == coach.schools[1]`;
`match3 = greatest and 'Greatest Need' in coach.schools`.
Python `and` short-circuits, so the index is evaluated only when the flag is
set; both statements always run. -/
def coachEligible (name : String) (first second greatest : Bool) (c : Coach) :
    Except String Bool :=
  match (if first then (idxAt c.schools 0).map fun s => name == s
         else Except.ok false) with
  | Except.error e => Except.error e
  | Except.ok m1 =>
    match (if second then (idxAt c.schools 1).map fun s => name == s
           else Except.ok false) with
    | Except.error e => Except.error e
    | Except.ok m2 =>
      Except.ok (m1 || m2 || (greatest && c.schools.contains "Greatest Need"))

/-- The `school_coaches` filter loop of `do_match` (matcher.py lines 546-552);
the first raised `IndexError` aborts the run. -/
def filterSchoolCoaches (name : String) (first second greatest : Bool) :
    List Coach → Except String (List Coach)
  | [] => Except.ok []
  | c :: cs =>
    match coachEligible name first second greatest c with
    | Except.error e => Except.error e
    | Except.ok b =>
      match filterSchoolCoaches name first second greatest cs with
      | Except.error e => Except.error e
      | Except.ok rest => Except.ok (if b then c :: rest else rest)

/-! ## Concrete instances used by the claim theorems -/

/-- The single teacher of scenario A. -/
def teacherT : Teacher := ⟨300000, "t@x", 3⟩

/-- Monday availability row: slots 2 and 3 only (6 slots per day). -/
def rowS : List ℕ := [0, 0, 1, 1, 0, 0]

/-- An all-zero availability row. -/
def rowZ : List ℕ := [0, 0, 0, 0, 0, 0]

/-- Scenario A schedule: available exactly Monday slots 2-3. -/
def schedS : List (List ℕ) := [rowS, rowZ, rowZ, rowZ, rowZ]

/-- The single student of scenario A. -/
def studentS : Student := ⟨100000, "t@x", schedS, false⟩

/-- The scenario A school: one teacher, one student. -/
def schoolA : School := ⟨"A", [studentS], [teacherT]⟩

/-- The scenario A coach: available Monday slots 2-3, no grade preference,
capacity one student and one day, no prior commitments. -/
def coachC : Coach := ⟨200000, ["A", "B"], [], 1, 1, schedS, ∅, ∅⟩

/-- The one cycle expected in scenario A. -/
def cycleA : Cycle := ⟨200000, [(0, 2, 300000), (0, 3, 300000)]⟩

/-- A school with a teacher but no students. -/
def schoolNoStudents : School := ⟨"E", [], [⟨300009, "e@x", 1⟩]⟩

/-- A student available only at Monday slot 1 (not slot 0). -/
def studentP : Student := ⟨100001, "t@x", [[0, 1, 0, 0, 0, 0], rowZ, rowZ, rowZ, rowZ], false⟩

/-- An all-available 6-slot row. -/
def ones6 : List ℕ := [1, 1, 1, 1, 1, 1]

/-- A fully available 5-day schedule. -/
def schedOnes : List (List ℕ) := [ones6, ones6, ones6, ones6, ones6]

/-- Two schools with one teacher each (guids 300000 and 300001). -/
def schoolsC1 : List School :=
  [⟨"A", [], [⟨300000, "a@x", 2⟩]⟩, ⟨"B", [], [⟨300001, "b@x", 2⟩]⟩]

/-- A coach who agreed to two students and already holds one committed
assignment, so one student of remaining capacity. -/
def coachC4 : Coach := ⟨200000, ["A", "B"], [], 2, 5, schedOnes, {0}, {(0, 0, 300000, 100009, 200000)}⟩

/-- A raw enumerated cycle of four tuple nodes (two assignment units at two
slots per assignment) plus the coach node. -/
def rawC4 : List GNode :=
  [GNode.slot (0, 2, 300000), GNode.slot (0, 3, 300000), GNode.coach 200000,
   GNode.slot (0, 4, 300000), GNode.slot (0, 5, 300000)]

/-! ## Claim theorems -/

/-- C1: the claim says `check_assignment` raises 'Coach already assigned to a
different school' when the stored list holds a committed assignment by the
same coach on the same day whose teacher belongs to a different school.  The
code computes `curr_school = self.find_school(teacher)` from the CANDIDATE's
teacher (database.py line 151, the committed tuple's teacher guid being
discarded at line 150), so the comparison `curr_school != school` compares a
value with itself and the error can never be raised.  Here teacher 300001
(committed, school index 1) and teacher 300000 (candidate, school index 0)
are at different schools, the committed tuple shares the candidate's coach
200000 and day 0, and yet the check accepts. -/
theorem c1_cross_school_conflict_not_raised :
    find_school schoolsC1 300001 = some 1 ∧
    find_school schoolsC1 300000 = some 0 ∧
    check_assignment 2 schoolsC1 (fun _ => schedOnes)
      [(0, 5, 300001, 100001, 200000)] (0, 2, 300000, 100000, 200000) =
      Except.ok () := by decide

/-- C2: the claim says matching a school with an empty student list completes
without error and yields an empty winning solution.  `find_cycles` reads the
day/slot dimensions from `students[0].schedule` (matcher.py lines 291-292),
so an empty student list raises `IndexError` instead.  (The empty-coach-pool
half of the claim does hold: see the driver model, whose root survives with
no assignments.) -/
theorem c2_empty_students_raises :
    find_cycles 2 schoolNoStudents [coachC] = Except.error "list index out of range" := by
  decide

/-- C3 counterexample: with one student available exactly at Monday slot 1,
the edge `(0,0,t) → (0,1,t)` is added (matcher.py lines 320-328 only test the
destination cell) although `(0,0,t)` was never emitted as an availability
node - it has no available student - so the claim's "edge exists only when
both endpoint nodes were emitted" and "every node present carries a
non-empty available-student list" both fail. -/
theorem c3_counterexample :
    ((((0, 0, 300000), (0, 1, 300000)) : Node × Node) ∈
      graphEdges [studentP] [teacherT] 5 6) ∧
    availStudents [studentP] [teacherT] 0 0 300000 = [] := by decide

/-- Membership in the per-cell teacher key list. -/
theorem mem_teacherGuidsAt {students : List Student} {teachers : List Teacher}
    {d s t : ℕ} :
    t ∈ teacherGuidsAt students teachers d s ↔
      ∃ te ∈ teachers, te.guid = t ∧ availStudents students teachers d s t ≠ [] := by
  simp only [teacherGuidsAt, List.mem_map, List.mem_filter, decide_eq_true_eq]
  constructor
  · rintro ⟨te, ⟨hmem, hav⟩, hguid⟩
    exact ⟨te, hmem, hguid, by rw [← hguid]; exact hav⟩
  · rintro ⟨te, hmem, hguid, hav⟩
    exact ⟨te, ⟨hmem, by rw [hguid]; exact hav⟩, hguid⟩

/-- C3 amended: a directed edge `(a, b)` exists in the master graph if and
only if the DESTINATION `b = (d, s, t)` was emitted as an availability node
(some teacher with guid `t` has a non-empty available-student list at
`(d, s)`), `1 ≤ s < num_slots`, `d < num_days`, and `a = (d, s-1, t)` is its
same-day, same-teacher predecessor; the source endpoint need not have been
emitted (`networkx.add_edge` creates it implicitly, with no student list).
In particular no edge crosses days or teachers, and every EMITTED node
carries a non-empty student list. -/
theorem c3_edge_characterization (students : List Student) (teachers : List Teacher)
    (nd ns : ℕ) (a b : Node) :
    ((a, b) ∈ graphEdges students teachers nd ns) ↔
      (b.1 < nd ∧ 1 ≤ b.2.1 ∧ b.2.1 < ns ∧
       (∃ te ∈ teachers, te.guid = b.2.2 ∧
         availStudents students teachers b.1 b.2.1 b.2.2 ≠ []) ∧
       a = (b.1, b.2.1 - 1, b.2.2)) := by
  simp only [graphEdges, List.mem_flatMap, List.mem_range, List.mem_range'_1, List.mem_map]
  constructor
  · rintro ⟨d, hd, s, hs, t, ht, heq⟩
    rw [Prod.mk.injEq] at heq
    obtain ⟨ha, hb⟩ := heq
    subst hb
    rw [mem_teacherGuidsAt] at ht
    exact ⟨hd, hs.1, show s < ns by omega, ht, ha.symm⟩
  · rintro ⟨hd, hs1, hs2, hemit, ha⟩
    refine ⟨b.1, hd, b.2.1, ⟨hs1, by omega⟩, b.2.2, ?_, ?_⟩
    · exact mem_teacherGuidsAt.mpr hemit
    · rw [Prod.mk.injEq]
      exact ⟨ha.symm, rfl⟩

/-- C4 counterexample: the enumeration filter (matcher.py line 378) compares
the cycle's assignment-unit count against the coach's TOTAL `num_students`,
not the remaining capacity.  A coach who agreed to 2 students and already
holds 1 committed assignment has remaining capacity 1, yet a 2-unit cycle is
kept, contradicting the claim that such a cycle is rejected. -/
theorem c4_counterexample :
    (processCycle 2 coachC4.guid coachC4.numStudents rawC4).isSome = true ∧
    coachC4.numStudents - coachC4.priorAssignments.card <
      (slotNodesOf rawC4).length / 2 := by decide

/-- C4 amended: during per-coach cycle enumeration a candidate cycle is
rejected exactly when its assignment-unit count exceeds the coach's TOTAL
student capacity (`coach.num_students`) or its tuple-node count is not a
multiple of slots-per-assignment; remaining capacity net of committed
assignments is enforced later, by `add_cycle` at search time, not here. -/
theorem c4_filter_uses_total_capacity (spa cg ns : ℕ) (raw : List GNode) :
    processCycle spa cg ns raw = none ↔
      ns < (slotNodesOf raw).length / spa ∨ (slotNodesOf raw).length % spa ≠ 0 := by
  simp only [processCycle]
  split_ifs with h1 h2 <;> simp_all

/-- C6: scenario A.  With 15-minute slots and 30-minute assignments the
derived slots-per-assignment is 2; for the one-teacher/one-student school
`schoolA` (student available exactly Monday slots 2-3) and the single coach
`coachC` (available exactly Monday slots 2-3, no grade preference, capacity
1 student / 1 day), cycle enumeration yields exactly one cycle, and the
search's winning solution holds exactly the assignment
(day 0, slot 2, teacher 300000, student 100000, coach 200000). -/
theorem c6_scenario_a :
    spaOf 15 30 = 2 ∧
    find_cycles 2 schoolA [coachC] = Except.ok [cycleA] ∧
    (find_solutions 2 (graphFn schoolA) schoolA [coachC] [cycleA]).map
      Traversal.assignments = some [(0, 2, 300000, 100000, 200000)] := by decide

/-- C7 counterexample: the end-of-window time string "15:30" parses to
`(15, 30)`, is accepted by `time_to_slot`, and returns slot 28 with
`num_slots = 28`, so the returned slot is NOT in the half-open range
`[0, num_slots)`.  (Callers use the result as an exclusive range bound, so
the code is intentional and the spec's half-open invariant is what fails.) -/
theorem c7_counterexample :
    time_to_slot metaDefault 15 30 = Except.ok 28 ∧
    metaDefault.num_slots = 28 ∧ ¬((28 : ℤ) < metaDefault.num_slots) := by decide

/-- C7 amended: for every parsed time `(hours, minutes)` with non-negative
components that `time_to_slot` accepts, given a well-formed window (start
time non-negative and at most 12:00, positive slot duration), the returned
slot index lies in the CLOSED range `[0, num_slots]`; the value `num_slots`
itself is reached exactly at the window end and is consumed by callers as an
exclusive range bound. -/
theorem c7_slot_in_closed_range (m : Meta) (h mn s : ℤ)
    (hh : 0 ≤ h) (hm : 0 ≤ mn) (hst : 0 ≤ m.startM) (hst7 : m.startM ≤ 720)
    (hmps : 0 < m.mps) (hok : time_to_slot m h mn = Except.ok s) :
    0 ≤ s ∧ s ≤ m.num_slots := by
  simp only [time_to_slot] at hok
  have key : ∀ c2 : ℤ, m.startM ≤ c2 → c2 ≤ m.endM →
      0 ≤ (c2 - m.startM).fdiv m.mps ∧ (c2 - m.startM).fdiv m.mps ≤ m.num_slots := by
    intro c2 hlo hhi
    rw [Int.fdiv_eq_ediv _ hmps.le]
    constructor
    · exact Int.ediv_nonneg (by omega) hmps.le
    · rw [Meta.num_slots, Int.fdiv_eq_ediv _ hmps.le]
      exact Int.ediv_le_ediv hmps (by omega)
  split_ifs at hok
  all_goals simp only [Except.ok.injEq, reduceCtorEq] at hok
  all_goals (subst hok; exact key _ (by omega) (by omega))

/-- Witness for C7 amended at the concrete accepted time "9:00" under the
default metadata: slot 2, within `[0, 28]`. -/
theorem c7_slot_in_closed_range_witness :
    (0 : ℤ) ≤ 2 ∧ (2 : ℤ) ≤ metaDefault.num_slots :=
  c7_slot_in_closed_range metaDefault 9 0 2 (by decide) (by decide) (by decide)
    (by decide) (by decide) (by decide)

/-! ## C8: add_assignment list behaviour -/

theorem assignLtB_irrefl (a : Assign) : assignLtB a a = false := by
  simp [assignLtB]

theorem assignLtB_conn {a b : Assign} (h1 : assignLtB a b = false) (h2 : a ≠ b) :
    assignLtB b a = true := by
  obtain ⟨a1, a2, a3, a4, a5⟩ := a
  obtain ⟨b1, b2, b3, b4, b5⟩ := b
  simp only [assignLtB, Bool.or_eq_false_iff, Bool.and_eq_false_iff,
    Bool.or_eq_true, Bool.and_eq_true, decide_eq_false_iff_not,
    decide_eq_true_eq] at *
  simp only [ne_eq, Prod.mk.injEq, not_and] at h2
  omega

theorem assignLtB_trans {a b c : Assign} (h1 : assignLtB a b = true)
    (h2 : assignLtB b c = true) : assignLtB a c = true := by
  obtain ⟨a1, a2, a3, a4, a5⟩ := a
  obtain ⟨b1, b2, b3, b4, b5⟩ := b
  obtain ⟨c1, c2, c3, c4, c5⟩ := c
  simp only [assignLtB, Bool.or_eq_true, Bool.and_eq_true, decide_eq_true_eq] at *
  omega

/-- Every member of the inserted list is the new element or an old member. -/
theorem mem_insert_assign {a x : Assign} :
    ∀ {l : List Assign}, x ∈ insert_assign a l → x = a ∨ x ∈ l := by
  intro l
  induction l with
  | nil => simp [insert_assign]
  | cons y ys ih =>
    simp only [insert_assign]
    split_ifs with hlt heq
    · intro hx
      rcases List.mem_cons.mp hx with hx | hx
      · exact Or.inr (List.mem_cons.mpr (Or.inl hx))
      · rcases ih hx with hx | hx
        · exact Or.inl hx
        · exact Or.inr (List.mem_cons.mpr (Or.inr hx))
    · intro hx
      exact Or.inr hx
    · intro hx
      rcases List.mem_cons.mp hx with hx | hx
      · exact Or.inl hx
      · exact Or.inr hx

/-- C8: re-adding a tuple already present in the (sorted) stored assignment
list leaves the list unchanged - the equality test of database.py line 121
returns before any insertion, with no error - and inserting a new tuple
preserves ascending sort order by the tuple
(day, slot, teacher, student, coach). -/
theorem c8_add_idempotent_and_sorted (a : Assign) :
    ∀ (l : List Assign), AscSorted l →
      (a ∈ l → insert_assign a l = l) ∧ AscSorted (insert_assign a l) := by
  intro l
  induction l with
  | nil =>
    intro _
    refine ⟨by simp, ?_⟩
    simp only [insert_assign]
    exact List.sorted_singleton a
  | cons x xs ih =>
    intro hs
    obtain ⟨hx, hxs⟩ := List.sorted_cons.mp hs
    obtain ⟨ih1, ih2⟩ := ih hxs
    constructor
    · intro hmem
      rcases List.mem_cons.mp hmem with hmem | hmem
      · subst hmem
        simp [insert_assign, assignLtB_irrefl]
      · have hlt : assignLtB x a = true := hx a hmem
        simp only [insert_assign, hlt, if_true]
        rw [ih1 hmem]
    · by_cases hlt : assignLtB x a = true
      · simp only [insert_assign, hlt, if_true]
        refine List.sorted_cons.mpr ⟨?_, ih2⟩
        intro b hb
        rcases mem_insert_assign hb with hb | hb
        · subst hb; exact hlt
        · exact hx b hb
      · by_cases heq : x = a
        · subst heq
          simp only [insert_assign]
          rw [if_neg hlt]
          simp only [if_true]
          exact List.sorted_cons.mpr ⟨hx, hxs⟩
        · simp only [insert_assign]
          rw [if_neg hlt, if_neg heq]
          have hax : assignLtB a x = true :=
            assignLtB_conn (Bool.eq_false_iff.mpr hlt) heq
          refine List.sorted_cons.mpr ⟨?_, List.sorted_cons.mpr ⟨hx, hxs⟩⟩
          intro b hb
          rcases List.mem_cons.mp hb with hb | hb
          · subst hb; exact hax
          · exact assignLtB_trans hax (hx b hb)

/-- Witness for C8 on a concrete sorted two-element list with the new tuple
already present. -/
theorem c8_add_idempotent_and_sorted_witness :
    (((0, 0, 0, 0, 0) : Assign) ∈
        ([(0, 0, 0, 0, 0), (1, 0, 0, 0, 0)] : List Assign) →
      insert_assign (0, 0, 0, 0, 0) [(0, 0, 0, 0, 0), (1, 0, 0, 0, 0)] =
        [(0, 0, 0, 0, 0), (1, 0, 0, 0, 0)]) ∧
    AscSorted (insert_assign (0, 0, 0, 0, 0) [(0, 0, 0, 0, 0), (1, 0, 0, 0, 0)]) :=
  c8_add_idempotent_and_sorted (0, 0, 0, 0, 0)
    [(0, 0, 0, 0, 0), (1, 0, 0, 0, 0)] (by decide)

/-! ## C9: the availability test of check_assignment -/

/-- The slice scan finds a zero exactly when some in-range cell of the row in
`[slot, slot + spa)` is zero. -/
theorem slice_any_zero (row : List ℕ) (slot spa : ℕ) :
    (sliceAt row slot spa).any (fun v => v == 0) = true ↔
      ∃ j, slot ≤ j ∧ j < slot + spa ∧ j < row.length ∧ row.getD j 1 = 0 := by
  simp only [sliceAt, List.any_eq_true, beq_iff_eq]
  constructor
  · rintro ⟨v, hv, rfl⟩
    rw [List.mem_iff_getElem?] at hv
    obtain ⟨i, hi⟩ := hv
    rw [List.getElem?_take] at hi
    by_cases hispa : i < spa
    · rw [if_pos hispa, List.getElem?_drop] at hi
      obtain ⟨hlen, hval⟩ := List.getElem?_eq_some_iff.mp hi
      refine ⟨slot + i, by omega, by omega, hlen, ?_⟩
      rw [List.getD_eq_getElem?_getD, List.getElem?_eq_getElem hlen, hval]
      rfl
    · rw [if_neg hispa] at hi
      exact absurd hi (by simp)
  · rintro ⟨j, hj1, hj2, hj3, hj4⟩
    refine ⟨0, ?_, rfl⟩
    rw [List.mem_iff_getElem?]
    refine ⟨j - slot, ?_⟩
    rw [List.getElem?_take, if_pos (by omega), List.getElem?_drop]
    have hid : slot + (j - slot) = j := by omega
    rw [hid, List.getElem?_eq_getElem hj3]
    rw [List.getD_eq_getElem?_getD, List.getElem?_eq_getElem hj3] at hj4
    simp only [Option.getD_some] at hj4
    rw [hj4]

/-- C9: for a candidate with an in-range day, the availability phase of
`check_assignment` rejects if and only if some cell of the coach's or the
student's schedule row in the covered range `[slot, slot + spa)` equals 0;
in particular cells valued 2 (committed) pass, so a candidate whose covered
slots are already marked committed is not rejected by this phase. -/
theorem c9_availability_iff (cm sm : List (List ℕ)) (day slot spa : ℕ)
    (hc : day < cm.length) (hs : day < sm.length) :
    availPhase cm sm day slot spa ≠ Except.ok () ↔
      ((∃ j, slot ≤ j ∧ j < slot + spa ∧ j < (cm.getD day []).length ∧
          (cm.getD day []).getD j 1 = 0) ∨
       (∃ j, slot ≤ j ∧ j < slot + spa ∧ j < (sm.getD day []).length ∧
          (sm.getD day []).getD j 1 = 0)) := by
  have hrowc : rowAt cm day = Except.ok (cm.getD day []) := by
    rw [rowAt, List.get?_eq_getElem?, List.getElem?_eq_getElem hc,
      List.getD_eq_getElem?_getD, List.getElem?_eq_getElem hc]
    rfl
  have hrows : rowAt sm day = Except.ok (sm.getD day []) := by
    rw [rowAt, List.get?_eq_getElem?, List.getElem?_eq_getElem hs,
      List.getD_eq_getElem?_getD, List.getElem?_eq_getElem hs]
    rfl
  have hac : availCheck cm day slot spa "Coach not available" =
      if (sliceAt (cm.getD day []) slot spa).any (fun v => v == 0) then
        Except.error "Coach not available" else Except.ok () := by
    rw [availCheck, hrowc]
  have has2 : availCheck sm day slot spa "Student not available" =
      if (sliceAt (sm.getD day []) slot spa).any (fun v => v == 0) then
        Except.error "Student not available" else Except.ok () := by
    rw [availCheck, hrows]
  rw [availPhase, hac, has2]
  by_cases h1 : (sliceAt (cm.getD day []) slot spa).any (fun v => v == 0) = true
  · rw [if_pos h1]
    simp only [ne_eq, reduceCtorEq, not_false_eq_true, true_iff]
    exact Or.inl ((slice_any_zero _ _ _).mp h1)
  · rw [if_neg h1]
    by_cases h2 : (sliceAt (sm.getD day []) slot spa).any (fun v => v == 0) = true
    · rw [if_pos h2]
      simp only [ne_eq, reduceCtorEq, not_false_eq_true, true_iff]
      exact Or.inr ((slice_any_zero _ _ _).mp h2)
    · rw [if_neg h2]
      simp only [ne_eq, not_true_eq_false, false_iff, not_or]
      constructor
      · intro hzero
        exact h1 ((slice_any_zero _ _ _).mpr hzero)
      · intro hzero
        exact h2 ((slice_any_zero _ _ _).mpr hzero)

/-- Witness for C9 at a concrete schedule pair: the coach row holds a zero at
the covered slot, so the phase rejects. -/
theorem c9_availability_iff_witness :
    availPhase [[0]] [[1]] 0 0 1 ≠ Except.ok () ↔
      ((∃ j, 0 ≤ j ∧ j < 0 + 1 ∧ j < (([[0]] : List (List ℕ)).getD 0 []).length ∧
          (([[0]] : List (List ℕ)).getD 0 []).getD j 1 = 0) ∨
       (∃ j, 0 ≤ j ∧ j < 0 + 1 ∧ j < (([[1]] : List (List ℕ)).getD 0 []).length ∧
          (([[1]] : List (List ℕ)).getD 0 []).getD j 1 = 0)) :=
  c9_availability_iff [[0]] [[1]] 0 0 1 (by decide) (by decide)

/-! ## C10: the orchestrator coach filter -/

/-- With both choice flags set, one coach's eligibility test runs without an
index error exactly when the coach lists at least two school preferences. -/
theorem coachEligible_ok_iff (name : String) (g : Bool) (c : Coach) :
    (∃ b, coachEligible name true true g c = Except.ok b) ↔
      2 ≤ c.schools.length := by
  rcases hcs : c.schools with _ | ⟨x, _ | ⟨y, rest⟩⟩ <;>
    simp [coachEligible, idxAt, hcs, Except.map]

/-- C10: with the first- and second-choice criteria both enabled, the
`do_match` coach filter indexes `coach.schools[0]` and `coach.schools[1]`
for every coach, so it completes without an index error if and only if every
coach's school-preference list has at least two entries. -/
theorem c10_filter_requires_two_schools (name : String) (g : Bool)
    (cs : List Coach) :
    (∃ r, filterSchoolCoaches name true true g cs = Except.ok r) ↔
      ∀ c ∈ cs, 2 ≤ c.schools.length := by
  induction cs with
  | nil => simp [filterSchoolCoaches]
  | cons c cs ih =>
    rw [List.forall_mem_cons, ← ih, ← coachEligible_ok_iff name g c]
    constructor
    · rintro ⟨r, hr⟩
      rw [filterSchoolCoaches] at hr
      constructor
      · cases he : coachEligible name true true g c with
        | error e => rw [he] at hr; simp at hr
        | ok b => exact ⟨b, rfl⟩
      · cases he : coachEligible name true true g c with
        | error e => rw [he] at hr; simp at hr
        | ok b =>
          rw [he] at hr
          cases hrest : filterSchoolCoaches name true true g cs with
          | error e => rw [hrest] at hr; simp at hr
          | ok rest => exact ⟨rest, rfl⟩
    · rintro ⟨⟨b, hb⟩, ⟨rest, hrest⟩⟩
      refine ⟨if b then c :: rest else rest, ?_⟩
      rw [filterSchoolCoaches, hb, hrest]

/-! ## C5: per-coach capacity invariants over every Traversal ever produced -/

/-- The Traversals the search ever produces: the root, and every child that
`add_cycle` returns (children of discarded traversals included - discarding
only forgets a traversal, it never alters one).  Cycles handed to the search
come from `find_cycles` and are same-day runs, captured by the `hday`
premise. -/
inductive Produced (spa : ℕ) (graph : Node → List ℕ) (school : School)
    (coaches : List Coach) : Traversal → Prop where
  | root : Produced spa graph school coaches (rootTraversal school coaches)
  | child {t t2 : Traversal} {cy : Cycle}
      (ht : Produced spa graph school coaches t)
      (hday : ∃ d, ∀ n ∈ cy.nodes, n.1 = d)
      (hadd : add_cycle spa graph t cy = some t2) :
      Produced spa graph school coaches t2

/-- Number of committed assignments of coach `g` in a traversal. -/
def nAssignOf (t : Traversal) (g : ℕ) : ℕ :=
  (t.assignments.filter fun a => a.coach == g).length

/-- The distinct days among coach `g`'s committed assignments. -/
def assignDaysOf (t : Traversal) (g : ℕ) : Finset ℕ :=
  ((t.assignments.filter fun a => a.coach == g).map Assign.day).toFinset

/-- The distinct students among coach `g`'s committed assignments. -/
def assignStudentsOf (t : Traversal) (g : ℕ) : Finset ℕ :=
  ((t.assignments.filter fun a => a.coach == g).map Assign.student).toFinset

/-- The inductive bookkeeping invariant tying a coach's capacity counters to
its committed assignments inside one traversal. -/
structure CoachInv (c : Coach) (t : Traversal) : Prop where
  days_sub : ∀ a ∈ t.assignments, a.coach = c.guid → a.day ∈ t.coachDays c.guid
  day_eq : t.coachDayCount c.guid = (c.numDays : ℤ) - (t.coachDays c.guid).card
  day_nonneg : 0 ≤ t.coachDayCount c.guid
  stu_eq : t.coachStudentCount c.guid =
    (c.numStudents : ℤ) - c.priorAssignments.card - nAssignOf t c.guid
  stu_nonneg : 0 ≤ t.coachStudentCount c.guid

/-- With catalog-unique guids, the guid lookup of a listed coach finds that
coach. -/
theorem findCoach_eq_self {coaches : List Coach}
    (hnodup : (coaches.map Coach.guid).Nodup) {c : Coach} (hc : c ∈ coaches) :
    findCoach coaches c.guid = some c := by
  induction coaches with
  | nil => cases hc
  | cons d ds ih =>
    rw [List.map_cons, List.nodup_cons] at hnodup
    rcases List.mem_cons.mp hc with rfl | hc2
    · simp [findCoach]
    · have hne : (d.guid == c.guid) = false := by
        rw [beq_eq_false_iff_ne]
        intro he
        exact hnodup.1 (he ▸ List.mem_map_of_mem Coach.guid hc2)
      rw [findCoach, List.find?_cons_of_neg _ (by simp [hne])]
      exact ih hnodup.2 hc2

/-- The root traversal satisfies the bookkeeping invariant, provided each
coach's prior committed state respects its own capacities. -/
theorem rootInv (school : School) (coaches : List Coach)
    (hnodup : (coaches.map Coach.guid).Nodup)
    (hday : ∀ c ∈ coaches, c.assignedDays.card ≤ c.numDays)
    (hstu : ∀ c ∈ coaches, c.priorAssignments.card ≤ c.numStudents)
    {c : Coach} (hc : c ∈ coaches) : CoachInv c (rootTraversal school coaches) := by
  have hfc := findCoach_eq_self hnodup hc
  constructor
  · intro a ha
    simp [rootTraversal] at ha
  · simp [rootTraversal, hfc]
  · have h1 := hday c hc
    simp only [rootTraversal, hfc]
    omega
  · simp [rootTraversal, hfc, nAssignOf]
  · have h1 := hstu c hc
    simp only [rootTraversal, hfc]
    omega

/-- What one group iteration does to the bookkeeping state: it may append at
most the assignments counted by `numAssignments`, each for this coach and
dated by the chunk's head node; the day counters are untouched and the
student counter drops once per appended assignment. -/
theorem processGroup_spec (graph : Node → List ℕ) (cg : ℕ) (s0 : GroupState)
    (ch : List Node) :
    ∃ extra : List Assign,
      (processGroup graph cg s0 ch).t.assignments = s0.t.assignments ++ extra ∧
      (processGroup graph cg s0 ch).numAssignments = s0.numAssignments + extra.length ∧
      (processGroup graph cg s0 ch).t.coachDayCount = s0.t.coachDayCount ∧
      (processGroup graph cg s0 ch).t.coachDays = s0.t.coachDays ∧
      (∀ g, (processGroup graph cg s0 ch).t.coachStudentCount g =
        s0.t.coachStudentCount g - (if g = cg then (extra.length : ℤ) else 0)) ∧
      (∀ a ∈ extra, a.coach = cg ∧ ∃ n0 r, ch = n0 :: r ∧ a.day = n0.1) := by
  match ch with
  | [] =>
    refine ⟨[], by simp [processGroup], by simp [processGroup], rfl, rfl, ?_, by simp⟩
    intro g
    simp [processGroup]
  | node :: rest =>
    rw [processGroup]
    by_cases hskip : (((node :: rest).toFinset ∩ s0.t.nodesUsed)).Nonempty
    · rw [if_pos hskip]
      exact ⟨[], by simp, by simp, rfl, rfl, fun g => by simp, by simp⟩
    · rw [if_neg hskip]
      dsimp only
      split
      · exact ⟨[], by simp, by simp, rfl, rfl, fun g => by simp, by simp⟩
      · next stu hfind =>
        refine ⟨[(node.1, node.2.1, node.2.2, stu, cg)], by simp, by simp,
          rfl, rfl, ?_, ?_⟩
        · intro g
          by_cases hg : g = cg <;> simp [hg]
        · intro a ha
          rw [List.mem_singleton] at ha
          subst ha
          exact ⟨rfl, node, rest, rfl, rfl⟩

/-- The group loop as a whole: composition of `processGroup_spec` over the
chunk list. -/
theorem fold_processGroup_spec (graph : Node → List ℕ) (cg : ℕ) :
    ∀ (chunks : List (List Node)) (s0 : GroupState),
      ∃ extra : List Assign,
        (chunks.foldl (processGroup graph cg) s0).t.assignments =
          s0.t.assignments ++ extra ∧
        (chunks.foldl (processGroup graph cg) s0).numAssignments =
          s0.numAssignments + extra.length ∧
        (chunks.foldl (processGroup graph cg) s0).t.coachDayCount =
          s0.t.coachDayCount ∧
        (chunks.foldl (processGroup graph cg) s0).t.coachDays = s0.t.coachDays ∧
        (∀ g, (chunks.foldl (processGroup graph cg) s0).t.coachStudentCount g =
          s0.t.coachStudentCount g - (if g = cg then (extra.length : ℤ) else 0)) ∧
        (∀ a ∈ extra, a.coach = cg ∧
          ∃ ch ∈ chunks, ∃ n0 r, ch = n0 :: r ∧ a.day = n0.1) := by
  intro chunks
  induction chunks with
  | nil =>
    intro s0
    exact ⟨[], by simp, by simp, rfl, rfl, fun g => by simp, by simp⟩
  | cons ch rest ih =>
    intro s0
    obtain ⟨e1, he1a, he1n, he1dc, he1ds, he1sc, he1m⟩ :=
      processGroup_spec graph cg s0 ch
    obtain ⟨e2, he2a, he2n, he2dc, he2ds, he2sc, he2m⟩ :=
      ih (processGroup graph cg s0 ch)
    rw [List.foldl_cons]
    refine ⟨e1 ++ e2, ?_, ?_, ?_, ?_, ?_, ?_⟩
    · rw [he2a, he1a, List.append_assoc]
    · rw [he2n, he1n, List.length_append]
      omega
    · rw [he2dc, he1dc]
    · rw [he2ds, he1ds]
    · intro g
      rw [he2sc g, he1sc g, List.length_append]
      by_cases hg : g = cg <;> simp [hg]
      ring
    · intro a ha
      rcases List.mem_append.mp ha with ha | ha
      · obtain ⟨hcg, n0, r, hch, hd⟩ := he1m a ha
        exact ⟨hcg, ch, List.mem_cons_self ch rest, n0, r, hch, hd⟩
      · obtain ⟨hcg, ch2, hch2, n0, r, hch, hd⟩ := he2m a ha
        exact ⟨hcg, ch2, List.mem_cons_of_mem ch hch2, n0, r, hch, hd⟩

/-- Every chunk that the slicing loop produces (for a positive step) is
nonempty and its head node comes from the original node list. -/
theorem chunkifyGo_chunk_head {spa : ℕ} (hspa : 0 < spa) :
    ∀ (fuel : ℕ) (l : List Node) (ch : List Node),
      ch ∈ chunkifyGo spa fuel l → ∃ n0 r, ch = n0 :: r ∧ n0 ∈ l := by
  intro fuel
  induction fuel with
  | zero =>
    intro l ch h
    cases l <;> simp [chunkifyGo] at h
  | succ f ih =>
    intro l ch h
    match l with
    | [] => simp [chunkifyGo] at h
    | x :: xs =>
      rw [chunkifyGo] at h
      rcases List.mem_cons.mp h with h | h
      · obtain ⟨k, hk⟩ := Nat.exists_eq_add_of_lt hspa
        rw [hk, Nat.zero_add, List.take_succ_cons] at h
        exact ⟨x, xs.take k, h, List.mem_cons_self x xs⟩
      · obtain ⟨n0, r, hch, hn0⟩ := ih ((x :: xs).drop spa) ch h
        exact ⟨n0, r, hch, List.drop_subset spa (x :: xs) hn0⟩

/-- Chunk heads of `chunkify` lie in the original list. -/
theorem chunkify_chunk_head {spa : ℕ} (hspa : 0 < spa) {l ch : List Node}
    (h : ch ∈ chunkify spa l) : ∃ n0 r, ch = n0 :: r ∧ n0 ∈ l :=
  chunkifyGo_chunk_head hspa l.length l ch h

/-- What a successful `add_cycle` did: the guards all passed, and the child
differs from the parent by exactly one cycle's worth of bookkeeping. -/
theorem add_cycle_spec {spa : ℕ} (hspa : 0 < spa) {graph : Node → List ℕ}
    {t t2 : Traversal} {cy : Cycle}
    (h : add_cycle spa graph t cy = some t2) :
    t.coachDayCount cy.coach ≠ 0 ∧
    ((cy.nodes.length / spa : ℕ) : ℤ) ≤ t.coachStudentCount cy.coach ∧
    ∃ n0 r, cy.nodes = n0 :: r ∧ n0.1 ∉ t.coachDays cy.coach ∧
    ∃ extra : List Assign,
      t2.assignments = t.assignments ++ extra ∧
      extra.length = cy.nodes.length / spa ∧
      (∀ a ∈ extra, a.coach = cy.coach ∧ ∃ n ∈ cy.nodes, a.day = n.1) ∧
      (∀ g, t2.coachDayCount g =
        t.coachDayCount g - (if g = cy.coach then 1 else 0)) ∧
      (∀ g, t2.coachDays g =
        if g = cy.coach then insert n0.1 (t.coachDays g) else t.coachDays g) ∧
      (∀ g, t2.coachStudentCount g =
        t.coachStudentCount g - (if g = cy.coach then (extra.length : ℤ) else 0)) := by
  rw [add_cycle] at h
  by_cases h1 : t.coachDayCount cy.coach ≠ 0
  case neg => rw [if_neg h1] at h; exact absurd h (by simp)
  rw [if_pos h1] at h
  by_cases h2 : ((cy.nodes.length / spa : ℕ) : ℤ) ≤ t.coachStudentCount cy.coach
  case neg => rw [if_neg h2] at h; exact absurd h (by simp)
  rw [if_pos h2] at h
  refine ⟨h1, h2, ?_⟩
  rcases hn : cy.nodes with _ | ⟨n0, r⟩
  · rw [hn] at h
    exact absurd h (by simp)
  rw [hn] at h
  dsimp only at h
  by_cases h3 : n0.1 ∉ t.coachDays cy.coach
  case neg => rw [if_neg h3] at h; exact absurd h (by simp)
  rw [if_pos h3] at h
  refine ⟨n0, r, rfl, h3, ?_⟩
  obtain ⟨extra, hea, hen, hedc, heds, hesc, hem⟩ :=
    fold_processGroup_spec graph cy.coach (chunkify spa (n0 :: r)) ⟨childOf t, 0⟩
  by_cases h4 : ((chunkify spa (n0 :: r)).foldl
      (processGroup graph cy.coach) ⟨childOf t, 0⟩).numAssignments =
      (n0 :: r).length / spa
  case neg => rw [if_neg h4] at h; exact absurd h (by simp)
  rw [if_pos h4] at h
  rw [Option.some.injEq] at h
  subst h
  refine ⟨extra, ?_, ?_, ?_, ?_, ?_, ?_⟩
  · exact hea
  · rw [hen] at h4
    simpa using h4
  · intro a ha
    obtain ⟨hcg, ch, hch, m0, mr, hchm, hd⟩ := hem a ha
    obtain ⟨p0, pr, hp, hp0⟩ := chunkify_chunk_head hspa hch
    rw [hp] at hchm
    rw [List.cons.injEq] at hchm
    exact ⟨hcg, m0, by rw [hchm.1] at hp0; exact hp0, hd⟩
  · intro g
    have hq : (List.foldl (processGroup graph cy.coach)
        ⟨childOf t, 0⟩ (chunkify spa (n0 :: r))).t.coachDayCount g =
        t.coachDayCount g := congrFun hedc g
    by_cases hg : g = cy.coach
    · subst hg
      simp [hq]
    · simp [hg, hq]
  · intro g
    have hq : (List.foldl (processGroup graph cy.coach)
        ⟨childOf t, 0⟩ (chunkify spa (n0 :: r))).t.coachDays g =
        t.coachDays g := congrFun heds g
    by_cases hg : g = cy.coach
    · subst hg
      simp [hq]
    · simp [hg, hq]
  · intro g
    have hq : (List.foldl (processGroup graph cy.coach)
        ⟨childOf t, 0⟩ (chunkify spa (n0 :: r))).t.coachStudentCount g =
        t.coachStudentCount g - (if g = cy.coach then (extra.length : ℤ) else 0) :=
      hesc g
    exact hq

/-- One successful `add_cycle` step preserves the bookkeeping invariant, for
every coach. -/
theorem CoachInv_add_cycle {spa : ℕ} (hspa : 0 < spa) {graph : Node → List ℕ}
    {t t2 : Traversal} {cy : Cycle} {c : Coach}
    (hday : ∃ d, ∀ n ∈ cy.nodes, n.1 = d)
    (hadd : add_cycle spa graph t cy = some t2)
    (hinv : CoachInv c t) : CoachInv c t2 := by
  obtain ⟨h1, h2, n0, r, hn, h3, extra, hea, hlen, hmem, hdc, hdays, hsc⟩ :=
    add_cycle_spec hspa hadd
  by_cases hg : c.guid = cy.coach
  · constructor
    · intro a ha hcoach
      rw [hea] at ha
      rw [hdays c.guid, if_pos hg]
      rcases List.mem_append.mp ha with ha | ha
      · exact Finset.mem_insert_of_mem (hinv.days_sub a ha hcoach)
      · obtain ⟨_, n, hnn, hd⟩ := hmem a ha
        obtain ⟨d, hall⟩ := hday
        have hd1 : n.1 = d := hall n hnn
        have hd2 : n0.1 = d := hall n0 (by rw [hn]; exact List.mem_cons_self n0 r)
        rw [hd, hd1, ← hd2]
        exact Finset.mem_insert_self n0.1 _
    · rw [hdc c.guid, if_pos hg, hdays c.guid, if_pos hg,
        Finset.card_insert_of_not_mem (hg ▸ h3)]
      have := hinv.day_eq
      push_cast
      omega
    · rw [hdc c.guid, if_pos hg]
      have ha := hinv.day_nonneg
      have hb : t.coachDayCount c.guid ≠ 0 := hg ▸ h1
      omega
    · rw [hsc c.guid, if_pos hg]
      have heq : nAssignOf t2 c.guid = nAssignOf t c.guid + extra.length := by
        rw [nAssignOf, nAssignOf, hea, List.filter_append, List.length_append]
        have hall : extra.filter (fun a => a.coach == c.guid) = extra := by
          rw [List.filter_eq_self]
          intro a ha
          rw [beq_iff_eq, hg]
          exact (hmem a ha).1
        rw [hall]
      rw [heq]
      have := hinv.stu_eq
      push_cast
      omega
    · rw [hsc c.guid, if_pos hg]
      have hb : ((cy.nodes.length / spa : ℕ) : ℤ) ≤ t.coachStudentCount c.guid :=
        hg ▸ h2
      rw [hlen]
      omega
  · have hfilter : extra.filter (fun a => a.coach == c.guid) = [] := by
      rw [List.filter_eq_nil_iff]
      intro a ha
      rw [beq_iff_eq]
      intro hco
      exact hg (by rw [← hco]; exact (hmem a ha).1)
    constructor
    · intro a ha hcoach
      rw [hea] at ha
      rw [hdays c.guid, if_neg hg]
      rcases List.mem_append.mp ha with ha | ha
      · exact hinv.days_sub a ha hcoach
      · exact absurd (show c.guid = cy.coach by
          rw [← hcoach]; exact (hmem a ha).1) hg
    · rw [hdc c.guid, if_neg hg, hdays c.guid, if_neg hg]
      have := hinv.day_eq
      omega
    · rw [hdc c.guid, if_neg hg]
      have := hinv.day_nonneg
      omega
    · rw [hsc c.guid, if_neg hg]
      have heq : nAssignOf t2 c.guid = nAssignOf t c.guid := by
        rw [nAssignOf, nAssignOf, hea, List.filter_append, hfilter,
          List.append_nil]
      rw [heq]
      have := hinv.stu_eq
      omega
    · rw [hsc c.guid, if_neg hg]
      have := hinv.stu_nonneg
      omega

/-- The bookkeeping invariant holds for every traversal the search produces. -/
theorem produced_inv {spa : ℕ} {graph : Node → List ℕ} {school : School}
    {coaches : List Coach} (hspa : 0 < spa)
    (hnodup : (coaches.map Coach.guid).Nodup)
    (hday : ∀ c ∈ coaches, c.assignedDays.card ≤ c.numDays)
    (hstu : ∀ c ∈ coaches, c.priorAssignments.card ≤ c.numStudents)
    {t : Traversal} (ht : Produced spa graph school coaches t)
    {c : Coach} (hc : c ∈ coaches) : CoachInv c t := by
  induction ht with
  | root => exact rootInv school coaches hnodup hday hstu hc
  | child _ hd hadd ih => exact CoachInv_add_cycle hspa hd hadd ih

/-- C5: for every Traversal the search ever produces (the root and every
child `add_cycle` returns, including ones later culled, observed before
discard) and every coach of the run: the number of distinct days among that
coach's committed assignment tuples is at most the coach's day capacity
`num_days`, and the number of distinct students is at most its student
capacity `num_students`.  Hypotheses: a positive slots-per-assignment,
catalog-unique coach guids, prior committed state within each coach's own
capacities, and (per `Produced`) cycles whose nodes share one day, as
`find_cycles` builds them. -/
theorem c5_capacity_invariant (spa : ℕ) (graph : Node → List ℕ)
    (school : School) (coaches : List Coach) (hspa : 0 < spa)
    (hnodup : (coaches.map Coach.guid).Nodup)
    (hday : ∀ c ∈ coaches, c.assignedDays.card ≤ c.numDays)
    (hstu : ∀ c ∈ coaches, c.priorAssignments.card ≤ c.numStudents)
    {t : Traversal} (ht : Produced spa graph school coaches t)
    {c : Coach} (hc : c ∈ coaches) :
    (assignDaysOf t c.guid).card ≤ c.numDays ∧
    (assignStudentsOf t c.guid).card ≤ c.numStudents := by
  have hinv := produced_inv hspa hnodup hday hstu ht hc
  constructor
  · have hsub : assignDaysOf t c.guid ⊆ t.coachDays c.guid := by
      intro x hx
      simp only [assignDaysOf, List.mem_toFinset, List.mem_map,
        List.mem_filter, beq_iff_eq] at hx
      obtain ⟨a, ⟨hal, hcoach⟩, hdayx⟩ := hx
      rw [← hdayx]
      exact hinv.days_sub a hal hcoach
    have h1 := Finset.card_le_card hsub
    have h2 := hinv.day_eq
    have h3 := hinv.day_nonneg
    omega
  · have hcard : (assignStudentsOf t c.guid).card ≤ nAssignOf t c.guid := by
      rw [nAssignOf, ← List.length_map _ Assign.student]
      exact List.toFinset_card_le _
    have h2 := hinv.stu_eq
    have h3 := hinv.stu_nonneg
    have h4 : (0 : ℤ) ≤ c.priorAssignments.card := by positivity
    omega

/-- Witness for C5 at the root traversal of the scenario A school and coach
pool: both distinct-day and distinct-student counts are within capacity. -/
theorem c5_capacity_invariant_witness :
    (assignDaysOf (rootTraversal schoolA [coachC]) coachC.guid).card ≤
      coachC.numDays ∧
    (assignStudentsOf (rootTraversal schoolA [coachC]) coachC.guid).card ≤
      coachC.numStudents :=
  c5_capacity_invariant 2 (graphFn schoolA) schoolA [coachC] (by decide)
    (by decide) (by decide) (by decide) Produced.root
    (List.mem_singleton.mpr rfl)

end RSMatch
